import Mathlib

/-!
Shallow embedding of the core of `jhcTofCam.cpp` (Sipeed MaixSense A010
time-of-flight camera driver) together with theorems settling the frozen
claims about its specification.

Conventions used throughout:
* C `unsigned char` values are `Nat` with an explicit `≤ 255` bound where
  it matters, and a `% 256` at every store into a byte array.
* C `unsigned short` stores truncate with `% 65536`.
* C `int` arithmetic that can go negative is modelled on `Int`; C integer
  division `/` (truncation toward zero) is `Int.tdiv`, and the arithmetic
  right shift `>>` of gcc is floor division, `Int.fdiv` by a power of two.
  Quantities that are provably non-negative are modelled on `Nat`, where
  `/` agrees with all of these conventions.
* images are total functions `Nat → Nat` (index = y*100+x, 0 ≤ index < 10000).
-/

namespace TofCam

/-! ### build_lut (jhcTofCam.cpp lines 81-88)

The C loop is `for u in 1..9, for pel in 0..255: norm[u-1][pel] =
(unsigned short)(4*u*pel)`.  `norm i pel` below is entry `[i][pel]` of that
table, i.e. `i` plays the role of `u - 1`. -/

/-- Lookup table built by `build_lut`: `norm[u-1][pel] = (unsigned short)(4*u*pel)`. -/
def norm (i pel : Nat) : Nat := (4 * (i + 1) * pel) % 65536

/-! ### reformat (jhcTofCam.cpp lines 499-511)

Per-pixel body of the loop
`if ((*s >= 255) || (*p >= 255) || (*v > vlim)) *d = 65535; else *d = sc[*p];`
with `sc = norm[unit - 1]`. -/

/-- Per-pixel output of `reformat`: masks unreliable pixels to 65535,
otherwise converts the filtered mean through the `norm` LUT row
`unit - 1`. -/
def reformat (unit vlim : Nat) (raw avg vvar : Nat → Nat) (i : Nat) : Nat :=
  if 255 ≤ raw i ∨ 255 ≤ avg i ∨ vlim < vvar i then 65535
  else norm (unit - 1) (avg i)

/-! ### depth_step (jhcTofCam.cpp lines 567-589)

`f = (unit << 8) / pend;  sc[i] = (f * i + 128) >> 8;  *p = sc[*p];`
then the same with `f = ((unit*unit) << 8) / (pend*pend)` for the
variance image, and finally `unit = pend`.  All quantities are
non-negative C ints, so `Nat` division is faithful; the store `*p = sc[*p]`
into an `unsigned char` truncates with `% 256`. -/

/-- Scaling table of `depth_step`: `sc[i] = (f * i + 128) >> 8`. -/
def depth_sc (f i : Nat) : Nat := (f * i + 128) / 256

/-- The function `depth_step`: rescales the temporal-filter mean and variance images
from resolution `unit` to `pend` and records `unit = pend`.  Returns
(new mean image, new variance image, new unit). -/
def depth_step (unit pend : Nat) (avg vvar : Nat → Nat) :
    (Nat → Nat) × (Nat → Nat) × Nat :=
  let f1 := (unit * 256) / pend
  let avg' := fun i => depth_sc f1 (avg i) % 256
  let f2 := (unit * unit * 256) / (pend * pend)
  let var' := fun i => depth_sc f2 (vvar i) % 256
  (avg', var', pend)

/-! ### Theorems for claims C1, C9, C10, C4 -/

/-- Claim C1: for every pixel index i in 0..9999, the 16-bit output pixel
written by `reformat` equals 65535 if the raw sample is 255, or the
filtered mean is 255, or the variance exceeds `vlim`; otherwise it equals
`norm (unit-1) (avg i)`, which is `4 * unit * avg i` quarter-millimetres. -/
theorem reformat_masks_and_scales (unit vlim : Nat) (raw avg vvar : Nat → Nat)
    (hu1 : 1 ≤ unit) (hu9 : unit ≤ 9)
    (hraw : ∀ i, raw i ≤ 255) (havg : ∀ i, avg i ≤ 255) :
    ∀ i < 10000,
      reformat unit vlim raw avg vvar i =
        if raw i = 255 ∨ avg i = 255 ∨ vlim < vvar i then 65535
        else 4 * unit * avg i := by
  intro i _
  have hr := hraw i
  have ha := havg i
  unfold reformat norm
  rcases Nat.lt_or_ge (raw i) 255 with h1 | h1
  · rcases Nat.lt_or_ge (avg i) 255 with h2 | h2
    · rcases Nat.lt_or_ge vlim (vvar i) with h3 | h3
      · simp [Nat.not_le.mpr h1, Nat.not_le.mpr h2, h3, Nat.ne_of_lt h2, Nat.ne_of_lt h1]
      · have hmask : ¬ (255 ≤ raw i ∨ 255 ≤ avg i ∨ vlim < vvar i) := by
          push_neg
          exact ⟨by omega, by omega, by omega⟩
        have hmask' : ¬ (raw i = 255 ∨ avg i = 255 ∨ vlim < vvar i) := by
          push_neg
          exact ⟨by omega, by omega, by omega⟩
        rw [if_neg hmask, if_neg hmask']
        have hsub : unit - 1 + 1 = unit := by omega
        rw [hsub]
        have hbound : 4 * unit * avg i < 65536 := by nlinarith
        exact Nat.mod_eq_of_lt hbound
    · have h2' : avg i = 255 := by omega
      simp [h2']
  · have h1' : raw i = 255 := by omega
    simp [h1']

/-- Witness for C1 at a concrete input: unit 2, vlim 32, raw/avg/variance
all constant 50 gives output `4*2*50 = 400` at pixel 0. -/
theorem reformat_masks_and_scales_witness :
    reformat 2 32 (fun _ => 50) (fun _ => 50) (fun _ => 20) 0 =
      if (50 : Nat) = 255 ∨ (50 : Nat) = 255 ∨ 32 < 20 then 65535
      else 4 * 2 * 50 :=
  reformat_masks_and_scales 2 32 (fun _ => 50) (fun _ => 50) (fun _ => 20)
    (by decide) (by decide) (fun _ => by norm_num) (fun _ => by norm_num) 0 (by decide)

/-- Claim C9 (implicit): every LUT entry reachable for a non-masked mean
(`u` in 1..9, mean ≤ 254) is at most 9144, strictly below the invalid
sentinel 65535; consequently a `reformat` output pixel equals 65535 exactly
when the pixel was masked invalid. -/
theorem valid_depth_never_sentinel :
    (∀ u, 1 ≤ u → u ≤ 9 → ∀ p ≤ 254, norm (u - 1) p ≤ 9144 ∧ norm (u - 1) p < 65535) ∧
    (∀ unit vlim : Nat, ∀ raw avg vvar : Nat → Nat, 1 ≤ unit → unit ≤ 9 →
      (∀ i, avg i ≤ 255) → ∀ i,
        (reformat unit vlim raw avg vvar i = 65535 ↔
          (255 ≤ raw i ∨ 255 ≤ avg i ∨ vlim < vvar i))) := by
  constructor
  · intro u hu1 hu9 p hp
    unfold norm
    have hsub : u - 1 + 1 = u := by omega
    rw [hsub]
    have hb : 4 * u * p ≤ 9144 := by nlinarith
    have hlt : 4 * u * p < 65536 := by omega
    rw [Nat.mod_eq_of_lt hlt]
    omega
  · intro unit vlim raw avg vvar hu1 hu9 havg i
    unfold reformat
    by_cases hmask : 255 ≤ raw i ∨ 255 ≤ avg i ∨ vlim < vvar i
    · simp [hmask]
    · rw [if_neg hmask]
      simp only [hmask, iff_false]
      have ha : avg i ≤ 254 := by
        have := havg i
        omega
      unfold norm
      have hsub : unit - 1 + 1 = unit := by omega
      rw [hsub]
      have hb : 4 * unit * avg i ≤ 9144 := by nlinarith
      rw [Nat.mod_eq_of_lt (by omega)]
      omega

/-- Witness for C9 at concrete inputs: instantiates both conjuncts,
at u = 9, p = 254 and at unit 2 with an all-50 image at pixel 0. -/
theorem valid_depth_never_sentinel_witness :
    (norm (9 - 1) 254 ≤ 9144 ∧ norm (9 - 1) 254 < 65535) ∧
    (reformat 2 32 (fun _ => 50) (fun _ => 50) (fun _ => 20) 0 = 65535 ↔
      (255 ≤ (50 : Nat) ∨ 255 ≤ (50 : Nat) ∨ 32 < 20)) :=
  ⟨valid_depth_never_sentinel.1 9 (by decide) (by decide) 254 (by decide),
   valid_depth_never_sentinel.2 2 32 (fun _ => 50) (fun _ => 50) (fun _ => 20)
     (by decide) (by decide) (fun _ => by norm_num) 0⟩

/-- Claim C10 (implicit): `depth_step` invoked with `pend = unit` is the
identity: the 8.8 fixed-point ratio is exactly 256, every mean pixel and
every variance pixel is unchanged, and the recorded unit is unchanged. -/
theorem depth_step_identity (u : Nat) (avg vvar : Nat → Nat)
    (hu1 : 1 ≤ u) (hu9 : u ≤ 9)
    (havg : ∀ i, avg i ≤ 255) (hvar : ∀ i, vvar i ≤ 255) :
    (u * 256) / u = 256 ∧ (u * u * 256) / (u * u) = 256 ∧
    (∀ i, (depth_step u u avg vvar).1 i = avg i) ∧
    (∀ i, (depth_step u u avg vvar).2.1 i = vvar i) ∧
    (depth_step u u avg vvar).2.2 = u := by
  have hu : 0 < u := hu1
  have huu : 0 < u * u := Nat.mul_pos hu hu
  have hf1 : (u * 256) / u = 256 := Nat.mul_div_cancel_left 256 hu
  have hf2 : (u * u * 256) / (u * u) = 256 := Nat.mul_div_cancel_left 256 huu
  refine ⟨hf1, hf2, ?_, ?_, rfl⟩
  · intro i
    have hb := havg i
    show depth_sc ((u * 256) / u) (avg i) % 256 = avg i
    rw [hf1]
    unfold depth_sc
    have h : (256 * avg i + 128) / 256 = avg i := by omega
    rw [h]
    omega
  · intro i
    have hb := hvar i
    show depth_sc ((u * u * 256) / (u * u)) (vvar i) % 256 = vvar i
    rw [hf2]
    unfold depth_sc
    have h : (256 * vvar i + 128) / 256 = vvar i := by omega
    rw [h]
    omega

/-- Witness for C10 at a concrete input: unit 2 with constant images. -/
theorem depth_step_identity_witness :
    (2 * 256) / 2 = 256 ∧ (2 * 2 * 256) / (2 * 2) = 256 ∧
    (∀ i, (depth_step 2 2 (fun _ => 77) (fun _ => 4)).1 i = (fun _ => (77 : Nat)) i) ∧
    (∀ i, (depth_step 2 2 (fun _ => 77) (fun _ => 4)).2.1 i = (fun _ => (4 : Nat)) i) ∧
    (depth_step 2 2 (fun _ => 77) (fun _ => 4)).2.2 = 2 :=
  depth_step_identity 2 (fun _ => 77) (fun _ => 4) (by decide) (by decide)
    (fun _ => by norm_num) (fun _ => by norm_num)

/-- Claim C4 counterexample: with `unit_current = 2`, `unit_pending = 1`
and a mean pixel of 255, the code stores `((512*255+128) >> 8) mod 256 =
254` into the byte, while the claimed saturated value `min 255 510` is
255.  The store truncates, it does not saturate. -/
theorem depth_step_not_saturating :
    (depth_step 2 1 (fun _ => 255) (fun _ => 0)).1 0 = 254 ∧
    min 255 ((((2 * 256) / 1) * 255 + 128) / 256) = 255 ∧ (254 : Nat) ≠ 255 := by
  refine ⟨?_, by decide, by decide⟩
  show depth_sc ((2 * 256) / 1) 255 % 256 = 254
  decide

/-- Claim C4 as amended: when `depth_step` runs with `unit_current = u` and
`unit_pending = q` (both 1..9), every mean pixel `p` becomes the byte
`round(((u<<8)/q)·p/256) mod 256` (truncated on store, not saturated), and
every variance pixel correspondingly with the squared ratio; whenever the
unit does not get finer (`u ≤ q`) no truncation can occur and the result
agrees with the saturated value `min 255 (round(f·p/256))`; afterwards
`unit_current = q`. -/
theorem depth_step_rescales (u q : Nat) (avg vvar : Nat → Nat)
    (hu1 : 1 ≤ u) (hu9 : u ≤ 9) (hq1 : 1 ≤ q) (hq9 : q ≤ 9)
    (havg : ∀ i, avg i ≤ 255) (hvar : ∀ i, vvar i ≤ 255) :
    (∀ i, (depth_step u q avg vvar).1 i =
        (((u * 256) / q) * avg i + 128) / 256 % 256) ∧
    (∀ i, (depth_step u q avg vvar).2.1 i =
        (((u * u * 256) / (q * q)) * vvar i + 128) / 256 % 256) ∧
    (u ≤ q → ∀ i,
      (depth_step u q avg vvar).1 i =
        min 255 ((((u * 256) / q) * avg i + 128) / 256) ∧
      (depth_step u q avg vvar).2.1 i =
        min 255 ((((u * u * 256) / (q * q)) * vvar i + 128) / 256)) ∧
    (depth_step u q avg vvar).2.2 = q := by
  refine ⟨fun i => rfl, fun i => rfl, ?_, rfl⟩
  intro huq i
  have hq : 0 < q := hq1
  have hf1 : (u * 256) / q ≤ 256 := by
    have h1 : u * 256 ≤ q * 256 := by nlinarith
    calc (u * 256) / q ≤ (q * 256) / q := Nat.div_le_div_right h1
    _ = 256 := Nat.mul_div_cancel_left 256 hq
  have hf2 : (u * u * 256) / (q * q) ≤ 256 := by
    have h1 : u * u * 256 ≤ q * q * 256 := by nlinarith
    have hqq : 0 < q * q := Nat.mul_pos hq hq
    calc (u * u * 256) / (q * q) ≤ (q * q * 256) / (q * q) := Nat.div_le_div_right h1
    _ = 256 := Nat.mul_div_cancel_left 256 hqq
  have ha := havg i
  have hv := hvar i
  constructor
  · show depth_sc ((u * 256) / q) (avg i) % 256 = _
    unfold depth_sc
    have hle : ((u * 256) / q) * avg i ≤ 256 * 255 := by nlinarith
    have hd : (((u * 256) / q) * avg i + 128) / 256 ≤ 255 := by omega
    rw [Nat.mod_eq_of_lt (by omega), min_eq_right hd]
  · show depth_sc ((u * u * 256) / (q * q)) (vvar i) % 256 = _
    unfold depth_sc
    have hle : ((u * u * 256) / (q * q)) * vvar i ≤ 256 * 255 := by nlinarith
    have hd : (((u * u * 256) / (q * q)) * vvar i + 128) / 256 ≤ 255 := by omega
    rw [Nat.mod_eq_of_lt (by omega), min_eq_right hd]

/-- Witness for amended C4 at a concrete input: u = 2, q = 3 on constant
images; instantiates the coarsening case at pixel 0. -/
theorem depth_step_rescales_witness :
    (depth_step 2 3 (fun _ => 200) (fun _ => 60)).1 0 =
      (((2 * 256) / 3) * 200 + 128) / 256 % 256 ∧
    (2 ≤ 3 →
      (depth_step 2 3 (fun _ => 200) (fun _ => 60)).1 0 =
        min 255 ((((2 * 256) / 3) * 200 + 128) / 256)) := by
  have h := depth_step_rescales 2 3 (fun _ => 200) (fun _ => 60)
    (by decide) (by decide) (by decide) (by decide)
    (fun _ => by norm_num) (fun _ => by norm_num)
  exact ⟨h.1 0, fun hle => (h.2.2.1 hle 0).1⟩


/-! ### Triple-buffer rotor: swap_bufs (lines 343-356) and the Range
consume section (lines 199-203)

The three storage arrays `d0 d1 d2` are `Fin 3`; the role pointers `fill`
(never NULL after Start), `done` and `lock` (NULL-able, hence `Option`)
index into them.  Both the publisher section of `swap_bufs` and the
consumer section of `Range` run under the single mutex, so reachable
states are exactly the interleavings of the two atomic steps below,
starting from the state set up by `Start` (lines 114-117). -/

/-- Buffer-rotor state: the three role pointers and the freshness counter. -/
structure BufState where
  fill : Fin 3
  done : Option (Fin 3)
  lock : Option (Fin 3)
  fresh : Int
deriving DecidableEq

/-- Fill-pointer rotation of `swap_bufs`:
`if (fill == d0) fill = ((lock != d1) ? d1 : d2); else if (fill == d1)
fill = ((lock != d0) ? d0 : d2); else fill = ((lock != d0) ? d0 : d1);`. -/
def next_fill (fill : Fin 3) (lock : Option (Fin 3)) : Fin 3 :=
  if fill = 0 then (if lock ≠ some 1 then 1 else 2)
  else if fill = 1 then (if lock ≠ some 0 then 0 else 2)
  else if lock ≠ some 0 then 0 else 1

/-- Publisher step (`swap_bufs` under the mutex): `done = fill; fresh += 1;`
then rotate `fill` away from `lock`. -/
def swap_bufs (s : BufState) : BufState :=
  { fill := next_fill s.fill s.lock, done := some s.fill, lock := s.lock,
    fresh := s.fresh + 1 }

/-- Consumer step (`Range` success section under the mutex):
`lock = done; fresh = 0;`. -/
def range_consume (s : BufState) : BufState :=
  { s with lock := s.done, fresh := 0 }

/-- One atomic mutex-guarded transition: a publish, or a consume (which the
consumer only performs after observing `fresh > 0`). -/
inductive BufStep : BufState → BufState → Prop
  | pub (s : BufState) : BufStep s (swap_bufs s)
  | con (s : BufState) : 0 < s.fresh → BufStep s (range_consume s)

/-- Rotor state set up by `Start` (lines 114-117): `fill = d0`,
`done = NULL`, `lock = NULL`, `fresh = -2`. -/
def bufInit : BufState := ⟨0, none, none, -2⟩

/-- States reachable from `bufInit` by any interleaving of the two steps. -/
inductive BufReach : BufState → Prop
  | init : BufReach bufInit
  | step {s t : BufState} : BufReach s → BufStep s t → BufReach t

/-- Number of occurrences of storage array `b` among the role pointers
{fill, done, lock}. -/
def occ (s : BufState) (b : Fin 3) : Nat :=
  (if s.fill = b then 1 else 0) + (if s.done = some b then 1 else 0) +
    (if s.lock = some b then 1 else 0)

/-- The inductive exclusivity invariant: `lock` and `done` never alias
`fill`. -/
def BufInv (s : BufState) : Prop :=
  s.lock ≠ some s.fill ∧ s.done ≠ some s.fill

/-- The rotation always moves `fill` off the just-written array and off
`lock`. -/
theorem next_fill_spec :
    ∀ (f : Fin 3) (l : Option (Fin 3)), next_fill f l ≠ f ∧ l ≠ some (next_fill f l) := by
  decide

/-- Each atomic step preserves `BufInv`. -/
theorem bufStep_inv {s t : BufState} (h : BufStep s t) (hs : BufInv s) : BufInv t := by
  cases h with
  | pub =>
    refine ⟨(next_fill_spec s.fill s.lock).2, fun hc => ?_⟩
    exact (next_fill_spec s.fill s.lock).1 (Option.some.inj hc).symm
  | con hfresh => exact ⟨hs.2, hs.2⟩

/-- The invariant `BufInv` holds in every reachable state. -/
theorem bufInv_reachable : ∀ s, BufReach s → BufInv s := by
  intro s h
  induction h with
  | init => exact ⟨by decide, by decide⟩
  | step _ hstep ih => exact bufStep_inv hstep ih

/-- Claim C2: in every state reachable after `Start` by any interleaving of
publisher swaps and consumer calls, `fill ≠ lock` and each storage array
appears at most twice among {fill, done, lock}; and immediately after each
publish, `done` is the array that was just written while `fill` points at
an array different from both `lock` and `done`. -/
theorem triple_buffer_exclusive :
    ∀ s, BufReach s →
      (s.lock ≠ some s.fill ∧ (∀ b : Fin 3, occ s b ≤ 2)) ∧
      ((swap_bufs s).done = some s.fill ∧
        (swap_bufs s).lock ≠ some (swap_bufs s).fill ∧
        (swap_bufs s).done ≠ some (swap_bufs s).fill) := by
  intro s hs
  have hinv := bufInv_reachable s hs
  refine ⟨⟨hinv.1, ?_⟩, rfl, ?_, ?_⟩
  · intro b
    unfold occ
    by_cases hf : s.fill = b
    · have h1 : s.done ≠ some b := by
        rw [← hf]
        exact hinv.2
      have h2 : s.lock ≠ some b := by
        rw [← hf]
        exact hinv.1
      simp [hf, h1, h2]
    · have h1 : (if s.done = some b then 1 else 0) ≤ 1 := by
        split <;> omega
      have h2 : (if s.lock = some b then 1 else 0) ≤ 1 := by
        split <;> omega
      simp only [hf, if_false]
      omega
  · exact (next_fill_spec s.fill s.lock).2
  · show some s.fill ≠ some (next_fill s.fill s.lock)
    intro hc
    exact (next_fill_spec s.fill s.lock).1 (Option.some.inj hc).symm

/-- Witness for C2 at the concrete initial state. -/
theorem triple_buffer_exclusive_witness :
    (bufInit.lock ≠ some bufInit.fill ∧ (∀ b : Fin 3, occ bufInit b ≤ 2)) ∧
    ((swap_bufs bufInit).done = some bufInit.fill ∧
      (swap_bufs bufInit).lock ≠ some (swap_bufs bufInit).fill ∧
      (swap_bufs bufInit).done ≠ some (swap_bufs bufInit).fill) :=
  triple_buffer_exclusive bufInit BufReach.init

/-! ### Range polling loop (jhcTofCam.cpp lines 182-204)

`Range(block)` is modelled on the poll schedule it observes: `freshAt t` is
the value of the shared `fresh` counter at the poll that follows `t` sleeps.
The result records whether the success path was taken together with the
number of 1 ms sleeps performed.  The C loop is

`wait = 0; if (ok <= 0) return NULL;
 while (fresh <= 0) { if (block <= 0) return NULL;
   if (wait++ > 500) return NULL; usleep(1000); }`

so at each loop head the guard compares the pre-increment value of `wait`,
which equals the number of sleeps performed so far. -/

/-- Polling loop of `Range`: returns (success?, number of sleeps). -/
def rangeLoop (freshAt : Nat → Int) (block : Int) : Nat → Nat → Bool × Nat
  | 0, wait => (false, wait)
  | fuel + 1, wait =>
      if 0 < freshAt wait then (true, wait)
      else if block ≤ 0 then (false, wait)
      else if 500 < wait then (false, wait)
      else rangeLoop freshAt block fuel (wait + 1)

/-- The function `Range(block)`: `none` models a NULL return before the loop (driver not
running); otherwise the loop result.  Fuel 1000 exceeds the largest
possible number of iterations (502). -/
def Range (ok : Int) (freshAt : Nat → Int) (block : Int) : Option (Bool × Nat) :=
  if ok ≤ 0 then none else some (rangeLoop freshAt block 1000 0)

/-- Helper: with `fresh` stuck non-positive and blocking on, the loop runs
until the guard fires at `wait = 501`. -/
theorem rangeLoop_stale (freshAt : Nat → Int) (block : Int)
    (hfresh : ∀ t, freshAt t ≤ 0) (hblock : 0 < block) :
    ∀ fuel wait, wait ≤ 501 → 502 - wait ≤ fuel →
      rangeLoop freshAt block fuel wait = (false, 501) := by
  intro fuel
  induction fuel with
  | zero => intro wait h1 h2; omega
  | succ n ih =>
    intro wait h1 h2
    unfold rangeLoop
    rw [if_neg (by have := hfresh wait; omega), if_neg (by omega)]
    by_cases hw : 500 < wait
    · have : wait = 501 := by omega
      rw [if_pos hw, this]
    · rw [if_neg hw]
      exact ih (wait + 1) (by omega) (by omega)

/-- Helper: if `fresh` first becomes positive at poll `t0 ≤ 501`, the loop
succeeds after exactly `t0` sleeps. -/
theorem rangeLoop_success (freshAt : Nat → Int) (block : Int) (t0 : Nat)
    (ht0 : t0 ≤ 501) (hstale : ∀ t < t0, freshAt t ≤ 0)
    (hpos : 0 < freshAt t0) (hblock : 0 < block) :
    ∀ fuel wait, wait ≤ t0 → t0 - wait < fuel →
      rangeLoop freshAt block fuel wait = (true, t0) := by
  intro fuel
  induction fuel with
  | zero => intro wait h1 h2; omega
  | succ n ih =>
    intro wait h1 h2
    unfold rangeLoop
    by_cases hw : wait = t0
    · rw [hw, if_pos hpos]
    · rw [if_neg (by have := hstale wait (by omega); omega), if_neg (by omega),
        if_neg (by omega)]
      exact ih (wait + 1) (by omega) (by omega)

/-- Claim C8 counterexample: with the driver running, blocking enabled and
`fresh` never becoming positive, `Range` performs 501 sleeps before
returning null, more than the 500 retries the claim allows. -/
theorem range_sleeps_501 :
    Range 1 (fun _ => 0) 1 = some (false, 501) ∧ ¬ (501 ≤ 500) := by
  refine ⟨?_, by decide⟩
  unfold Range
  rw [if_neg (by norm_num)]
  rw [rangeLoop_stale (fun _ => 0) 1 (fun t => le_refl 0) (by norm_num) 1000 0
    (by omega) (by omega)]

/-- Claim C8 as amended: `Range(block)` returns null whenever the driver is
not running (`ok ≤ 0`); when running with no fresh frame it returns null
immediately (zero sleeps) if `block` is false, and returns null after 501
retries of 1 ms sleep (the post-increment guard `wait++ > 500` allows 501
sleeps, not 500) if `block` is true and `fresh` never turns positive; if
`fresh` turns positive at poll `t0 ≤ 501` it succeeds after exactly `t0`
sleeps; and the mutex-guarded success section assigns `lock ← done` and
`fresh ← 0` and returns the (new) address held in `lock`. -/
theorem range_behaviour (ok : Int) (freshAt : Nat → Int) (block : Int) :
    (ok ≤ 0 → Range ok freshAt block = none) ∧
    (0 < ok → block ≤ 0 → freshAt 0 ≤ 0 → Range ok freshAt block = some (false, 0)) ∧
    (0 < ok → 0 < block → (∀ t, freshAt t ≤ 0) →
      Range ok freshAt block = some (false, 501)) ∧
    (0 < ok → 0 < block → ∀ t0 ≤ 501, (∀ t < t0, freshAt t ≤ 0) → 0 < freshAt t0 →
      Range ok freshAt block = some (true, t0)) ∧
    (∀ s : BufState, (range_consume s).lock = s.done ∧ (range_consume s).fresh = 0) := by
  refine ⟨?_, ?_, ?_, ?_, fun s => ⟨rfl, rfl⟩⟩
  · intro h
    unfold Range
    rw [if_pos h]
  · intro hok hblock hfresh
    unfold Range
    rw [if_neg (by omega)]
    unfold rangeLoop
    rw [if_neg (by omega), if_pos hblock]
  · intro hok hblock hfresh
    unfold Range
    rw [if_neg (by omega)]
    rw [rangeLoop_stale freshAt block hfresh hblock 1000 0 (by omega) (by omega)]
  · intro hok hblock t0 ht0 hstale hpos
    unfold Range
    rw [if_neg (by omega)]
    rw [rangeLoop_success freshAt block t0 ht0 hstale hpos hblock 1000 0 (by omega)
      (by omega)]

/-- Witness for amended C8 at a concrete input: running driver, `fresh`
already positive at the first poll, so success with zero sleeps. -/
theorem range_behaviour_witness :
    Range 1 (fun _ => 1) 1 = some (true, 0) :=
  (range_behaviour 1 (fun _ => 1) 1).2.2.2.1 (by norm_num) (by norm_num) 0
    (by omega) (fun t ht => absurd ht (Nat.not_lt_zero t)) (by norm_num)

/-! ### sync (jhcTofCam.cpp lines 279-316)

The transport is a byte stream `stream : Nat → Option Nat` giving the byte
at each consumed position (`none` = EOF/timeout on that `read`).  `syncGo
fuel start pos` mirrors the scan loop: `start` is the C iteration counter
(post-incremented, so an iteration beginning with `start > 20000` aborts),
`pos` the number of bytes consumed so far.  The result is `some n` with `n`
the total bytes consumed on success, `none` on failure.  The loop performs
at most 20002 iterations, so fuel 20002 is exact. -/

/-- Scan loop of `sync`, one constructor case per byte of the sentinel
`00 FF 20 27`; any mismatch restarts the scan with the iteration counter
bumped. -/
def syncGo (stream : Nat → Option Nat) : Nat → Nat → Nat → Option Nat
  | 0, _, _ => none
  | fuel + 1, start, pos =>
      if 20000 < start then none
      else
        match stream pos with
        | none => none
        | some b1 =>
          if b1 ≠ 0 then syncGo stream fuel (start + 1) (pos + 1)
          else
            match stream (pos + 1) with
            | none => none
            | some b2 =>
              if b2 ≠ 255 then syncGo stream fuel (start + 1) (pos + 2)
              else
                match stream (pos + 2) with
                | none => none
                | some b3 =>
                  if b3 ≠ 32 then syncGo stream fuel (start + 1) (pos + 3)
                  else
                    match stream (pos + 3) with
                    | none => none
                    | some b4 =>
                      if b4 = 39 then some (pos + 4)
                      else syncGo stream fuel (start + 1) (pos + 4)

/-- The function `sync()` on a byte stream: scan from the start of the stream. -/
def sync (stream : Nat → Option Nat) : Option Nat :=
  syncGo stream 20002 0 0

/-- Byte stream refuting claim C7: 5001 blocks `00 FF 20 00` (20004 bytes)
followed by the sentinel `00 FF 20 27`. -/
def syncCexStream (pos : Nat) : Option Nat :=
  some (if pos % 4 = 0 then 0
        else if pos % 4 = 1 then 255
        else if pos % 4 = 2 then 32
        else if pos = 20007 then 39 else 0)

/-- Byte stream whose first four bytes are the sentinel, used as witness. -/
def syncWitStream (pos : Nat) : Option Nat :=
  some (if pos = 0 then 0
        else if pos = 1 then 255
        else if pos = 2 then 32
        else if pos = 3 then 39 else 0)


/-- Crossing one mismatching block `00 FF 20 00` of `syncCexStream` costs a
single scan iteration and 4 bytes; after 5001 such blocks the sentinel at
bytes 20004..20007 is matched. -/
theorem syncCex_block (m : Nat) : ∀ k fuel, k + m = 5001 → m < fuel →
    syncGo syncCexStream fuel k (4 * k) = some 20008 := by
  induction m with
  | zero =>
    intro k fuel hk hf
    obtain ⟨f, rfl⟩ : ∃ f, fuel = f + 1 := ⟨fuel - 1, by omega⟩
    have hk' : k = 5001 := by omega
    subst hk'
    norm_num [syncGo, syncCexStream]
  | succ n ih =>
    intro k fuel hk hf
    obtain ⟨f, rfl⟩ : ∃ f, fuel = f + 1 := ⟨fuel - 1, by omega⟩
    have h1 : syncCexStream (4 * k) = some 0 := by
      unfold syncCexStream
      rw [Nat.mul_mod_right]
      norm_num
    have h2 : syncCexStream (4 * k + 1) = some 255 := by
      unfold syncCexStream
      have e : (4 * k + 1) % 4 = 1 := by omega
      rw [e]
      norm_num
    have h3 : syncCexStream (4 * k + 2) = some 32 := by
      unfold syncCexStream
      have e : (4 * k + 2) % 4 = 2 := by omega
      rw [e]
      norm_num
    have h4 : syncCexStream (4 * k + 3) = some 0 := by
      unfold syncCexStream
      have e : (4 * k + 3) % 4 = 3 := by omega
      rw [e]
      have ne : 4 * k + 3 ≠ 20007 := by omega
      simp [ne]
    show syncGo syncCexStream (f + 1) k (4 * k) = some 20008
    unfold syncGo
    rw [if_neg (by omega), h1]
    norm_num
    rw [h2]
    norm_num
    rw [h3]
    norm_num
    rw [h4]
    norm_num
    have e4 : 4 * k + 3 + 1 = 4 * (k + 1) := by omega
    rw [e4]
    exact ih (k + 1) f (by omega) (by omega)

/-- Claim C7 counterexample: on `syncCexStream` the scanner consumes 20004
bytes without a sentinel match (more than 20,000) and then still succeeds,
returning with 20008 bytes consumed, because the abort guard counts scan
iterations (5002 here), not bytes. -/
theorem sync_succeeds_beyond_20000 :
    sync syncCexStream = some 20008 ∧ 20000 < 20008 - 4 := by
  refine ⟨?_, by decide⟩
  show syncGo syncCexStream 20002 0 0 = some 20008
  have h := syncCex_block 5001 0 20002 (by omega) (by omega)
  simpa using h

/-- On success the scanner has consumed through a sentinel and has used at
most 20001 iterations of at most 4 bytes each, counted from `start`. -/
theorem syncGo_success (stream : Nat → Option Nat) :
    ∀ fuel start pos n, syncGo stream fuel start pos = some n →
      pos + 4 ≤ n ∧ n ≤ pos + 4 * (20001 - start) ∧
      stream (n - 4) = some 0 ∧ stream (n - 3) = some 255 ∧
      stream (n - 2) = some 32 ∧ stream (n - 1) = some 39 := by
  intro fuel
  induction fuel with
  | zero => intro start pos n h; exact absurd h (by simp [syncGo])
  | succ f ih =>
    intro start pos n h
    unfold syncGo at h
    by_cases hs : 20000 < start
    · rw [if_pos hs] at h
      exact absurd h (by simp)
    · rw [if_neg hs] at h
      cases e1 : stream pos with
      | none => rw [e1] at h; exact absurd h (by simp)
      | some b1 =>
        rw [e1] at h
        dsimp only at h
        by_cases hb1 : b1 ≠ 0
        · rw [if_pos hb1] at h
          obtain ⟨ha, hb, hc⟩ := ih (start + 1) (pos + 1) n h
          exact ⟨by omega, by omega, hc⟩
        · rw [if_neg hb1] at h
          have hb1' : b1 = 0 := by omega
          cases e2 : stream (pos + 1) with
          | none => rw [e2] at h; exact absurd h (by simp)
          | some b2 =>
            rw [e2] at h
            dsimp only at h
            by_cases hb2 : b2 ≠ 255
            · rw [if_pos hb2] at h
              obtain ⟨ha, hb, hc⟩ := ih (start + 1) (pos + 2) n h
              exact ⟨by omega, by omega, hc⟩
            · rw [if_neg hb2] at h
              have hb2' : b2 = 255 := by omega
              cases e3 : stream (pos + 2) with
              | none => rw [e3] at h; exact absurd h (by simp)
              | some b3 =>
                rw [e3] at h
                dsimp only at h
                by_cases hb3 : b3 ≠ 32
                · rw [if_pos hb3] at h
                  obtain ⟨ha, hb, hc⟩ := ih (start + 1) (pos + 3) n h
                  exact ⟨by omega, by omega, hc⟩
                · rw [if_neg hb3] at h
                  have hb3' : b3 = 32 := by omega
                  cases e4 : stream (pos + 3) with
                  | none => rw [e4] at h; exact absurd h (by simp)
                  | some b4 =>
                    rw [e4] at h
                    dsimp only at h
                    by_cases hb4 : b4 = 39
                    · rw [if_pos hb4] at h
                      have hn : n = pos + 4 := by
                        have := Option.some.inj h
                        omega
                      subst hn
                      have r1 : pos + 4 - 4 = pos := by omega
                      have r2 : pos + 4 - 3 = pos + 1 := by omega
                      have r3 : pos + 4 - 2 = pos + 2 := by omega
                      have r4 : pos + 4 - 1 = pos + 3 := by omega
                      rw [r1, r2, r3, r4]
                      subst hb1' hb2' hb3' hb4
                      exact ⟨by omega, by omega, e1, e2, e3, e4⟩
                    · rw [if_neg hb4] at h
                      obtain ⟨ha, hb, hc⟩ := ih (start + 1) (pos + 4) n h
                      exact ⟨by omega, by omega, hc⟩

/-- Claim C7 as amended: `sync()` aborts with failure when more than 20,000
scan iterations have run without matching the sentinel (each iteration
consumes between 1 and 4 bytes, so up to 80,004 bytes may be consumed
before giving up), or on any transport EOF/timeout; on success it returns
having consumed exactly through the sentinel `00 FF 20 27` — the last four
bytes consumed are the sentinel and nothing beyond it is read — after at
most 80,004 consumed bytes. -/
theorem sync_iteration_budget (stream : Nat → Option Nat) :
    (∀ n, sync stream = some n →
      4 ≤ n ∧ n ≤ 80004 ∧
      stream (n - 4) = some 0 ∧ stream (n - 3) = some 255 ∧
      stream (n - 2) = some 32 ∧ stream (n - 1) = some 39) ∧
    (∀ fuel start pos, 20000 < start → syncGo stream (fuel + 1) start pos = none) := by
  constructor
  · intro n h
    obtain ⟨ha, hb, hc⟩ := syncGo_success stream 20002 0 0 n h
    exact ⟨by omega, by omega, hc⟩
  · intro fuel start pos hstart
    unfold syncGo
    rw [if_pos hstart]

/-- Witness for amended C7: a stream whose first four bytes are the
sentinel, on which `sync` consumes exactly 4 bytes. -/
theorem sync_iteration_budget_witness :
    4 ≤ 4 ∧ 4 ≤ 80004 ∧
    syncWitStream (4 - 4) = some 0 ∧ syncWitStream (4 - 3) = some 255 ∧
    syncWitStream (4 - 2) = some 32 ∧ syncWitStream (4 - 1) = some 39 :=
  (sync_iteration_budget syncWitStream).1 4 (by decide)


/-! ### fill_raw (jhcTofCam.cpp lines 323-338)

After `sync` has consumed the sentinel, `fill_raw` loops
`rc = read(ser, pkt + n, 10018 - n); if (rc <= 0) return 0; n += rc;
if (n >= 10018) break;` starting from `n = 0`.  The transport is modelled
by the post-sentinel byte stream `stream` (byte at each consumed position)
and a chunk schedule `rc` (the return count of the k-th `read`, clamped to
the requested amount; 0 models a timeout).  The packet buffer is threaded
through explicitly; each read deposits `stream` bytes at offsets
`n ≤ j < n + r`. -/

/-- Read-accumulate loop of `fill_raw`; returns (final n, final pkt). -/
def fill_rawGo (stream rc : Nat → Nat) :
    Nat → Nat → Nat → (Nat → Nat) → Option (Nat × (Nat → Nat))
  | 0, _, _, _ => none
  | fuel + 1, k, n, pkt =>
      if min (rc k) (10018 - n) = 0 then none
      else if 10018 ≤ n + min (rc k) (10018 - n) then
        some (n + min (rc k) (10018 - n),
          fun j => if n ≤ j ∧ j < n + min (rc k) (10018 - n) then stream j else pkt j)
      else
        fill_rawGo stream rc fuel (k + 1) (n + min (rc k) (10018 - n))
          (fun j => if n ≤ j ∧ j < n + min (rc k) (10018 - n) then stream j else pkt j)

/-- The function `fill_raw()`: accumulate into the packet buffer from `n = 0`.  Fuel
10018 covers the worst case of one byte per read. -/
def fill_raw (stream rc : Nat → Nat) (pkt0 : Nat → Nat) :
    Option (Nat × (Nat → Nat)) :=
  fill_rawGo stream rc 10018 0 0 pkt0

/-- Post-sentinel stream used for the C3 counterexample and witness; its
byte 0 is 171, not the sentinel byte 0x00. -/
def cexStream (j : Nat) : Nat := (j + 171) % 256

/-- Chunk schedule where every read returns everything requested. -/
def cexRc (_ : Nat) : Nat := 10018

/-- Claim C3 counterexample: after a successful sync, `fill_raw` consumes
10018 further bytes (not the claimed 10,014) and byte 0 of the packet
buffer is the first post-sentinel byte (171 here), not the sentinel byte
0x00: the sentinel is never stored in the buffer. -/
theorem fill_raw_not_10014 :
    Option.map Prod.fst (fill_raw cexStream cexRc (fun _ => 0)) = some 10018 ∧
    Option.map (fun r => r.2 0) (fill_raw cexStream cexRc (fun _ => 0)) = some 171 ∧
    (10018 : Nat) ≠ 10014 ∧ (171 : Nat) ≠ 0 := by
  exact ⟨by rfl, by rfl, by decide, by decide⟩

/-- Loop invariant for `fill_rawGo`: bytes below `n` already mirror the
stream; on success the final count is exactly 10018 and the whole buffer
mirrors the stream. -/
theorem fill_rawGo_spec (stream rc : Nat → Nat) :
    ∀ fuel k n pkt, (∀ j < n, pkt j = stream j) → n < 10018 →
      ∀ n' pkt', fill_rawGo stream rc fuel k n pkt = some (n', pkt') →
        n' = 10018 ∧ ∀ j < 10018, pkt' j = stream j := by
  intro fuel
  induction fuel with
  | zero =>
    intro k n pkt hpre hn n' pkt' h
    exact absurd h (by simp [fill_rawGo])
  | succ f ih =>
    intro k n pkt hpre hn n' pkt' h
    unfold fill_rawGo at h
    by_cases h0 : min (rc k) (10018 - n) = 0
    · rw [if_pos h0] at h
      exact absurd h (by simp)
    · rw [if_neg h0] at h
      have hr1 : 1 ≤ min (rc k) (10018 - n) := by omega
      have hr2 : min (rc k) (10018 - n) ≤ 10018 - n := Nat.min_le_right _ _
      have hnext : ∀ j < n + min (rc k) (10018 - n),
          (fun j => if n ≤ j ∧ j < n + min (rc k) (10018 - n) then stream j
                    else pkt j) j = stream j := by
        intro j hj
        by_cases hcase : n ≤ j
        · simp only [hcase, hj, and_self, if_true]
        · simp only [hcase, false_and, if_false]
          exact hpre j (by omega)
      by_cases hbreak : 10018 ≤ n + min (rc k) (10018 - n)
      · rw [if_pos hbreak] at h
        have heq := Option.some.inj h
        have hn' : n' = n + min (rc k) (10018 - n) := by
          have := congrArg Prod.fst heq
          simpa using this.symm
        have hpkt' : pkt' = fun j =>
            if n ≤ j ∧ j < n + min (rc k) (10018 - n) then stream j else pkt j := by
          have := congrArg Prod.snd heq
          simpa using this.symm
        have htot : n + min (rc k) (10018 - n) = 10018 := by omega
        refine ⟨by omega, ?_⟩
        intro j hj
        rw [hpkt']
        exact hnext j (by omega)
      · rw [if_neg hbreak] at h
        exact ih (k + 1) (n + min (rc k) (10018 - n)) _ hnext (by omega) n' pkt' h

/-- Claim C3 as amended: after every successful `sync()` (which consumes
the four sentinel bytes itself), `fill_raw()` on success consumes exactly
10,018 further bytes — the 16 remaining header bytes, the 10,000 payload
bytes and the 2 trailer bytes — accumulating them into the 10,018-byte
packet buffer from byte 0 on; the sentinel is not stored in the buffer
(the payload starts at byte 16: `raw = pkt + 16`). -/
theorem fill_raw_accumulates (stream rc : Nat → Nat) (pkt0 : Nat → Nat) :
    ∀ n pkt, fill_raw stream rc pkt0 = some (n, pkt) →
      n = 10018 ∧ ∀ j < 10018, pkt j = stream j := by
  intro n pkt h
  exact fill_rawGo_spec stream rc 10018 0 0 pkt0
    (fun j hj => absurd hj (Nat.not_lt_zero j)) (by omega) n pkt h

/-- Witness for amended C3: the full-read schedule satisfies the success
hypothesis; byte 0 of the resulting buffer equals stream byte 0. -/
theorem fill_raw_accumulates_witness :
    (fun j => if 0 ≤ j ∧ j < 0 + min (cexRc 0) (10018 - 0) then cexStream j
              else (fun _ => (0 : Nat)) j) 0 = cexStream 0 :=
  (fill_raw_accumulates cexStream cexRc (fun _ => 0)
    (0 + min (cexRc 0) (10018 - 0))
    (fun j => if 0 ≤ j ∧ j < 0 + min (cexRc 0) (10018 - 0) then cexStream j
              else (fun _ => (0 : Nat)) j) (by rfl)).2 0 (by norm_num)


/-! ### flywheel (jhcTofCam.cpp lines 464-493)

Per-pixel Kalman-like temporal filter.  C `int` arithmetic can go negative
here (`diff`, `k * diff`), so the embedding lives on `Int`: C `/` is
`Int.tdiv` and the arithmetic right shift `>>` is floor division `asr`;
left shifts of the non-negative operands are multiplications.  The model
uses unbounded integers and therefore agrees with the C `int` code exactly
whenever the C code has no signed overflow (overflow is undefined
behaviour); with byte-valued images this holds for all gains up to the
default `fi = 26`, and in particular throughout claim C6 where `fi = 0`. -/

/-- gcc arithmetic right shift on `int`: floor division by a power of 2. -/
def asr (a : Int) (n : Nat) : Int := Int.fdiv a (2 ^ n)

/-- Flywheel store saturation `((val <= 0) ? 0 : ((val < 255) ? val : 255))`. -/
def clampByte (val : Int) : Int := if val ≤ 0 then 0 else if val < 255 then val else 255

/-- Per-pixel flywheel update (loop body, lines 480-492):
`diff = m - p; vm = cfi*v + fi*diff*diff; k = (vm << 8)/(vm + mn);
p = clamp(((p << 8) + k*diff + 128) >> 8);
v = clamp(((256 - k)*(vm >> 1) + 16384) >> 15)`. -/
def flywheel_pix (fi mn : Int) (m p v : Int) : Int × Int :=
  let cfi := 256 - fi
  let diff := m - p
  let vm := cfi * v + fi * diff * diff
  let k := Int.tdiv (vm * 256) (vm + mn)
  (clampByte (asr (p * 256 + k * diff + 128) 8),
   clampByte (asr ((256 - k) * asr vm 1 + 16384) 15))

/-- Whole-image flywheel step including the first-frame initialisation
`if (frame <= 0) { p ← m; v ← 0 }`. -/
def flywheel (fi mn : Int) (frame : Nat) (m p v : Nat → Int) :
    (Nat → Int) × (Nat → Int) :=
  if frame ≤ 0 then (m, fun _ => 0)
  else (fun i => (flywheel_pix fi mn (m i) (p i) (v i)).1,
        fun i => (flywheel_pix fi mn (m i) (p i) (v i)).2)

/-- State of the temporal filter after the flywheel has run with frame
counters 0..n on a median image that is identical on every frame. -/
def flywheel_run (fi mn : Int) (m p0 v0 : Nat → Int) : Nat → (Nat → Int) × (Nat → Int)
  | 0 => flywheel fi mn 0 m p0 v0
  | n + 1 =>
      flywheel fi mn (n + 1) m (flywheel_run fi mn m p0 v0 n).1
        (flywheel_run fi mn m p0 v0 n).2

/-- With `fi = 0` and `mn > 0`, a pixel already at the median with zero
variance is a fixed point of the flywheel update. -/
theorem flywheel_pix_fixed (mn q : Int) (hmn : 0 < mn) (h0 : 0 ≤ q) (h255 : q ≤ 255) :
    flywheel_pix 0 mn q q 0 = (q, 0) := by
  unfold flywheel_pix
  have hdiff : q - q = 0 := by omega
  rw [hdiff]
  norm_num
  constructor
  · unfold asr
    rw [Int.fdiv_eq_ediv _ (by norm_num)]
    have hval : (q * 256 + 128) / 2 ^ 8 = q := by omega
    rw [hval]
    unfold clampByte
    by_cases hq : q ≤ 0
    · rw [if_pos hq]; omega
    · rw [if_neg hq]
      by_cases hq' : q < 255
      · rw [if_pos hq']
      · rw [if_neg hq']; omega
  · decide

/-- Claim C6: if `fi = round(256·f0) = 0` and `mn = round(256·nv) > 0` and
the median image is identical on every frame, then after the first-frame
initialisation (`p ← m`, `v ← 0` at frame counter 0) every subsequent
flywheel step leaves the mean image equal to that first median image and
the variance image all-zero. -/
theorem flywheel_flat (mn : Int) (m p0 v0 : Nat → Int)
    (hmn : 0 < mn) (hm0 : ∀ i, 0 ≤ m i) (hm255 : ∀ i, m i ≤ 255) :
    ∀ n i, (flywheel_run 0 mn m p0 v0 n).1 i = m i ∧
      (flywheel_run 0 mn m p0 v0 n).2 i = 0 := by
  intro n
  induction n with
  | zero =>
    intro i
    show (flywheel 0 mn 0 m p0 v0).1 i = m i ∧ (flywheel 0 mn 0 m p0 v0).2 i = 0
    unfold flywheel
    rw [if_pos (by omega)]
    exact ⟨rfl, rfl⟩
  | succ n ih =>
    intro i
    show (flywheel 0 mn (n + 1) m _ _).1 i = m i ∧ (flywheel 0 mn (n + 1) m _ _).2 i = 0
    unfold flywheel
    rw [if_neg (by omega)]
    have h1 := (ih i).1
    have h2 := (ih i).2
    simp only []
    rw [h1, h2, flywheel_pix_fixed mn (m i) hmn (hm0 i) (hm255 i)]
    exact ⟨rfl, rfl⟩

/-- Witness for C6 at a concrete input: constant median image 7, noise
floor 256, three steps, pixel 0. -/
theorem flywheel_flat_witness :
    (flywheel_run 0 256 (fun _ => 7) (fun _ => 3) (fun _ => 5) 3).1 0 = 7 ∧
    (flywheel_run 0 256 (fun _ => 7) (fun _ => 3) (fun _ => 5) 3).2 0 = 0 :=
  flywheel_flat 256 (fun _ => 7) (fun _ => 3) (fun _ => 5) (by norm_num)
    (fun _ => by norm_num) (fun _ => by norm_num) 3 0


/-! ### median5x5 (jhcTofCam.cpp lines 368-452)

Incremental-histogram 5x5 median.  The per-row state is the 256-bin
histogram `vals` (C `int vals[256]`, an `Int`-valued function), the lowest
occupied bin `bot`, and the cached low bins `lowest` (C `int lowest[6]`, a
member array that persists across pixels and rows, modelled as a threaded
function; its initial contents are arbitrary, like the uninitialised C
array).  The source image is a function `s`; rows are clamped with
`now = ((now <= 0) ? 0 : ((now < 9900) ? now : 9900))` and the window
columns use the C clamps `nowx = max(x-2,0)` and `nowx = min(x+3,99)`. -/

/-- Pointwise update of an `Int`-valued histogram. -/
def updI (f : Nat → Int) (i : Nat) (x : Int) : Nat → Int :=
  fun j => if j = i then x else f j

/-- Pointwise update of the `lowest` cache. -/
def updN (f : Nat → Nat) (i x : Nat) : Nat → Nat :=
  fun j => if j = i then x else f j

/-- Per-row sliding-window state of `median5x5`. -/
structure MedState where
  vals : Nat → Int
  bot : Nat
  lowest : Nat → Nat

/-- Clamped row base address `now` for window row offset `j` of row `y`:
`now = y + j; now = ((now <= 0) ? 0 : ((now < 9900) ? now : 9900))`. -/
def rbase (y : Nat) (j : Int) : Nat :=
  (if (y : Int) + j ≤ 0 then 0
   else if (y : Int) + j < 9900 then (y : Int) + j else 9900).toNat

/-- The five window-row offsets `j = -200, -100, 0, 100, 200`. -/
def jlist : List Int := [-200, -100, 0, 100, 200]

/-- Account one pixel with multiplicity `w` into the histogram:
`bot = ((pel < bot) ? pel : bot); vals[pel] += w;`. -/
def seedPel (m : MedState) (pel : Nat) (w : Int) : MedState :=
  { vals := updI m.vals pel (m.vals pel + w),
    bot := if pel < m.bot then pel else m.bot,
    lowest := m.lowest }

/-- Histogram seeding contribution of one window row `j` at `x = 0`: the
left edge pixel with weight 3, then columns 1 and 2 with weight 1. -/
def seedJ (s : Nat → Nat) (y : Nat) (m : MedState) (j : Int) : MedState :=
  seedPel (seedPel (seedPel m (s (rbase y j)) 3) (s (rbase y j + 1)) 1)
    (s (rbase y j + 2)) 1

/-- Row setup of `median5x5`: clear the histogram, `bot = 255`, then seed
the five window rows; `lowest` keeps its previous (stale) contents. -/
def seedRow (s : Nat → Nat) (y : Nat) (low : Nat → Nat) : MedState :=
  jlist.foldl (seedJ s y) ⟨fun _ => 0, 255, low⟩

/-- Median scan `for (hi = bot; hi < 256; hi++) if ((v = vals[hi]) > 0)
{ if (cnt < 6) lowest[cnt++] = hi; sub += v; if (sub >= 13) break; }`,
returning the break value of `hi` (256 if the loop runs off the end)
and the updated `lowest` cache. -/
def scanGo (vals : Nat → Int) : Nat → Nat → Int → Nat → (Nat → Nat) → Nat × (Nat → Nat)
  | 0, hi, _, _, low => (hi, low)
  | fuel + 1, hi, sub, cnt, low =>
      if 0 < vals hi then
        if 13 ≤ sub + vals hi then (hi, if cnt < 6 then updN low cnt hi else low)
        else
          scanGo vals fuel (hi + 1) (sub + vals hi)
            (if cnt < 6 then cnt + 1 else cnt)
            (if cnt < 6 then updN low cnt hi else low)
      else scanGo vals fuel (hi + 1) sub cnt low

/-- Median of the current window: scan bins upward from `bot`. -/
def scanMed (m : MedState) : Nat × (Nat → Nat) :=
  scanGo m.vals (256 - m.bot) m.bot 0 0 m.lowest

/-- One window row of the outgoing-column subtraction:
`if ((pel == bot) && (vals[pel] <= 1)) bot = lowest[++cnt];
vals[pel] -= 1;` (the replacement counter `cnt` rides along). -/
def subJ (s : Nat → Nat) (y nowx : Nat) (st : MedState × Nat) (j : Int) :
    MedState × Nat :=
  (⟨updI st.1.vals (s (rbase y j + nowx)) (st.1.vals (s (rbase y j + nowx)) - 1),
    if s (rbase y j + nowx) = st.1.bot ∧ st.1.vals (s (rbase y j + nowx)) ≤ 1
    then st.1.lowest (st.2 + 1) else st.1.bot,
    st.1.lowest⟩,
   if s (rbase y j + nowx) = st.1.bot ∧ st.1.vals (s (rbase y j + nowx)) ≤ 1
   then st.2 + 1 else st.2)

/-- Subtract the outgoing window column at (clamped) `nowx` over the five
window rows, with the replacement counter starting at 0. -/
def subCol (s : Nat → Nat) (y nowx : Nat) (m : MedState) : MedState :=
  (jlist.foldl (subJ s y nowx) (m, 0)).1

/-- One window row of the incoming-column addition:
`bot = ((pel < bot) ? pel : bot); vals[pel] += 1;`. -/
def addJ (s : Nat → Nat) (y nowx : Nat) (m : MedState) (j : Int) : MedState :=
  seedPel m (s (rbase y j + nowx)) 1

/-- Add the incoming window column at (clamped) `nowx` over the five
window rows. -/
def addCol (s : Nat → Nat) (y nowx : Nat) (m : MedState) : MedState :=
  jlist.foldl (addJ s y nowx) m

/-- Inner `x` loop of `median5x5`: store the median (cast to a byte), then
unless this is the last pixel of the row slide the window one column right
(subtract column `max(x-2,0)`, add column `min(x+3,99)`).  Returns the row
outputs and the final `lowest` cache. -/
def medRowGo (s : Nat → Nat) (y : Nat) : Nat → Nat → MedState → List Nat × (Nat → Nat)
  | 0, _, st => ([], st.lowest)
  | fuel + 1, x, st =>
      if 99 ≤ x then
        ((scanMed st).1 % 256 ::
          (medRowGo s y fuel (x + 1) ⟨st.vals, st.bot, (scanMed st).2⟩).1,
         (medRowGo s y fuel (x + 1) ⟨st.vals, st.bot, (scanMed st).2⟩).2)
      else
        ((scanMed st).1 % 256 ::
          (medRowGo s y fuel (x + 1)
            (addCol s y (min (x + 3) 99)
              (subCol s y (x - 2) ⟨st.vals, st.bot, (scanMed st).2⟩))).1,
         (medRowGo s y fuel (x + 1)
            (addCol s y (min (x + 3) 99)
              (subCol s y (x - 2) ⟨st.vals, st.bot, (scanMed st).2⟩))).2)

/-- Outer `y` loop of `median5x5`: 100 rows, `y` stepping by 100, each row
seeded afresh while the `lowest` cache persists. -/
def median5x5Go (s : Nat → Nat) : Nat → Nat → (Nat → Nat) → List Nat
  | 0, _, _ => []
  | rows + 1, y, low =>
      (medRowGo s y 100 0 (seedRow s y low)).1 ++
        median5x5Go s rows (y + 100) (medRowGo s y 100 0 (seedRow s y low)).2

/-- The function `median5x5()` on source image `s`; `low0` is the arbitrary initial
content of the uninitialised `lowest` member array. -/
def median5x5 (s : Nat → Nat) (low0 : Nat → Nat) : List Nat :=
  median5x5Go s 100 0 low0


/-! ### Uniform-image behaviour of median5x5 (claim C5) -/

/-- Histogram with `k` samples in bin `c` and nothing elsewhere. -/
def uniVals (c : Nat) (k : Int) : Nat → Int := fun j => if j = c then k else 0

/-- Componentwise equality of `MedState`. -/
theorem medState_eq {v1 v2 : Nat → Int} {b1 b2 : Nat} {l1 l2 : Nat → Nat}
    (hv : ∀ j, v1 j = v2 j) (hb : b1 = b2) (hl : ∀ j, l1 j = l2 j) :
    (⟨v1, b1, l1⟩ : MedState) = ⟨v2, b2, l2⟩ := by
  have h1 : v1 = v2 := funext hv
  have h2 : l1 = l2 := funext hl
  rw [h1, hb, h2]

/-- Reading the occupied bin of a uniform histogram. -/
theorem uniVals_self (c : Nat) (k : Int) : uniVals c k c = k := by
  unfold uniVals
  simp

/-- Updating the occupied bin of a uniform histogram keeps it uniform. -/
theorem updI_uniform (c : Nat) (k x : Int) : updI (uniVals c k) c x = uniVals c x := by
  funext j
  unfold updI uniVals
  by_cases h : j = c <;> simp [h]

/-- Accounting a pixel of value `c` into a uniform histogram. -/
theorem seedPel_uniform (c : Nat) (k w : Int) (b : Nat) (L : Nat → Nat) :
    seedPel ⟨uniVals c k, b, L⟩ c w = ⟨uniVals c (k + w), min c b, L⟩ := by
  unfold seedPel
  dsimp only
  rw [uniVals_self, updI_uniform]
  apply medState_eq
  · intro j
    rfl
  · split_ifs <;> omega
  · intro j
    rfl

/-- Seeding one window row of a uniform image adds 5 samples to bin `c`. -/
theorem seedJ_uniform (c y : Nat) (k : Int) (b : Nat) (L : Nat → Nat) (j : Int) :
    seedJ (fun _ => c) y ⟨uniVals c k, b, L⟩ j = ⟨uniVals c (k + 5), min c b, L⟩ := by
  show seedPel (seedPel (seedPel ⟨uniVals c k, b, L⟩ c 3) c 1) c 1 = _
  rw [seedPel_uniform, seedPel_uniform, seedPel_uniform]
  have h1 : min c (min c (min c b)) = min c b := by omega
  have h2 : k + 3 + 1 + 1 = k + 5 := by ring
  rw [h1, h2]

/-- Row setup on the uniform image: 25 samples in bin `c`, `bot = c`. -/
theorem seedRow_uniform (c y : Nat) (hc : c ≤ 255) (L : Nat → Nat) :
    seedRow (fun _ => c) y L = ⟨uniVals c 25, c, L⟩ := by
  have h0 : (⟨fun _ => 0, 255, L⟩ : MedState) = ⟨uniVals c 0, 255, L⟩ := by
    apply medState_eq
    · intro j
      unfold uniVals
      by_cases h : j = c <;> simp [h]
    · rfl
    · intro j
      rfl
  unfold seedRow jlist
  simp only [List.foldl]
  rw [h0, seedJ_uniform, seedJ_uniform, seedJ_uniform, seedJ_uniform, seedJ_uniform]
  apply medState_eq
  · intro j
    norm_num
  · omega
  · intro j
    rfl

/-- The median scan over a uniform histogram stops at once: the first bin
holds all 25 samples, so the output is `c` and `lowest[0]` is set to `c`. -/
theorem scanMed_uniform (c : Nat) (hc : c ≤ 255) (L : Nat → Nat) :
    scanMed ⟨uniVals c 25, c, L⟩ = (c, updN L 0 c) := by
  unfold scanMed
  dsimp only
  obtain ⟨f, hf⟩ : ∃ f, 256 - c = f + 1 := ⟨255 - c, by omega⟩
  rw [hf]
  simp only [scanGo]
  rw [uniVals_self]
  norm_num

/-- Removing one outgoing pixel of value `c` while the bin still holds more
than one sample never triggers the `bot` replacement. -/
theorem subJ_uniform (c y nowx : Nat) (k : Int) (hk : 1 < k) (L : Nat → Nat)
    (cnt : Nat) (j : Int) :
    subJ (fun _ => c) y nowx (⟨uniVals c k, c, L⟩, cnt) j =
      (⟨uniVals c (k - 1), c, L⟩, cnt) := by
  unfold subJ
  dsimp only
  rw [uniVals_self, updI_uniform]
  have hcond : ¬ (c = c ∧ k ≤ 1) := by
    rintro ⟨h1, h2⟩
    omega
  rw [if_neg hcond, if_neg hcond]

/-- Sliding out a column of the uniform image removes 5 samples. -/
theorem subCol_uniform (c y nowx : Nat) (L : Nat → Nat) :
    subCol (fun _ => c) y nowx ⟨uniVals c 25, c, L⟩ = ⟨uniVals c 20, c, L⟩ := by
  unfold subCol jlist
  simp only [List.foldl]
  rw [subJ_uniform c y nowx 25 (by norm_num) L 0 (-200),
    subJ_uniform c y nowx (25 - 1) (by norm_num) L 0 (-100),
    subJ_uniform c y nowx (25 - 1 - 1) (by norm_num) L 0 0,
    subJ_uniform c y nowx (25 - 1 - 1 - 1) (by norm_num) L 0 100,
    subJ_uniform c y nowx (25 - 1 - 1 - 1 - 1) (by norm_num) L 0 200]
  dsimp only
  apply medState_eq
  · intro j
    norm_num
  · rfl
  · intro j
    rfl

/-- Sliding in a column of the uniform image adds 5 samples back. -/
theorem addCol_uniform (c y nowx : Nat) (L : Nat → Nat) :
    addCol (fun _ => c) y nowx ⟨uniVals c 20, c, L⟩ = ⟨uniVals c 25, c, L⟩ := by
  unfold addCol addJ jlist
  simp only [List.foldl]
  show seedPel (seedPel (seedPel (seedPel (seedPel ⟨uniVals c 20, c, L⟩ c 1) c 1) c 1)
    c 1) c 1 = _
  rw [seedPel_uniform, seedPel_uniform, seedPel_uniform, seedPel_uniform,
    seedPel_uniform]
  apply medState_eq
  · intro j
    norm_num
  · omega
  · intro j
    rfl

/-- Every pixel of a row of the uniform image comes out as `c`, from any
window state of the uniform shape and any `lowest` contents. -/
theorem medRowGo_uniform (c y : Nat) (hc : c ≤ 255) :
    ∀ fuel x L, (medRowGo (fun _ => c) y fuel x ⟨uniVals c 25, c, L⟩).1 =
      List.replicate fuel c := by
  intro fuel
  induction fuel with
  | zero => intro x L; rfl
  | succ f ih =>
    intro x L
    unfold medRowGo
    rw [scanMed_uniform c hc L]
    by_cases h99 : 99 ≤ x
    · rw [if_pos h99]
      dsimp only
      rw [ih (x + 1) (updN L 0 c), Nat.mod_eq_of_lt (by omega)]
      rfl
    · rw [if_neg h99]
      dsimp only
      rw [subCol_uniform c y (x - 2) (updN L 0 c),
        addCol_uniform c y (min (x + 3) 99) (updN L 0 c),
        ih (x + 1) (updN L 0 c), Nat.mod_eq_of_lt (by omega)]
      rfl

/-- All rows of the uniform image come out constant `c`. -/
theorem median5x5Go_uniform (c : Nat) (hc : c ≤ 255) :
    ∀ rows y L, median5x5Go (fun _ => c) rows y L = List.replicate (100 * rows) c := by
  intro rows
  induction rows with
  | zero => intro y L; rfl
  | succ r ih =>
    intro y L
    unfold median5x5Go
    rw [seedRow_uniform c y hc L, medRowGo_uniform c y hc 100 0 L, ih (y + 100)]
    rw [← List.replicate_add]
    congr 1
    ring

/-- Claim C5: for every constant value `c` in 0..255 (and whatever the
uninitialised `lowest` array holds), `median5x5` on the uniform 100x100
image of value `c` produces `c` at every one of the 10,000 output pixels,
including the 2-pixel border synthesized by row clamping and left/right
column replication. -/
theorem median5x5_uniform (c : Nat) (hc : c ≤ 255) (low0 : Nat → Nat) :
    median5x5 (fun _ => c) low0 = List.replicate 10000 c ∧
    (median5x5 (fun _ => c) low0).length = 10000 ∧
    ∀ pix ∈ median5x5 (fun _ => c) low0, pix = c := by
  have h : median5x5 (fun _ => c) low0 = List.replicate 10000 c := by
    unfold median5x5
    rw [median5x5Go_uniform c hc 100 0 low0]
  refine ⟨h, ?_, ?_⟩
  · rw [h, List.length_replicate]
  · intro pix hp
    rw [h] at hp
    exact List.eq_of_mem_replicate hp

/-- Witness for C5 at a concrete input: uniform value 3 with a zeroed
initial `lowest` array. -/
theorem median5x5_uniform_witness :
    median5x5 (fun _ => 3) (fun _ => 0) = List.replicate 10000 3 ∧
    (median5x5 (fun _ => 3) (fun _ => 0)).length = 10000 ∧
    ∀ pix ∈ median5x5 (fun _ => 3) (fun _ => 0), pix = 3 :=
  median5x5_uniform 3 (by norm_num) (fun _ => 0)

end TofCam






